import Mathlib

/-!
# otk::timer

A shallow embedding of `otk_timer.hpp`: the cancellable one-shot timer that owns a
worker thread, waits on a future for a timeout, and calls its callback once.

The program is concurrent, so the embedding is a transition system.  The timer
object together with its worker thread is one state value; every action a thread
can take on the timer is a function from a state to an `Outcome`.

* Line 54, `thread_ = std::thread(...)`, is two steps.  Constructing the
  temporary starts the worker (`timer.construct`); the move-assignment into
  `thread_` follows and ends the constructor (`timer.assign`).  Between the two
  the worker runs while `thread_` still has the default id and is not joinable.
* The worker lambda (lines 54-63) is cut at its statements: `WorkerPc` says which
  statement the worker executes next and `timer.worker` executes it.
* `cancel()` takes `cancel_mutex_` around its test-and-set, and nothing outside
  that critical section reads `cancel_request_`; it is one transition.
* `wait()` takes `wait_mutex_` around `joinable()`/`join()`, and nothing else
  writes `thread_`; the transition is the return of the call, which `join()`
  permits only after the worker thread has finished.
* Time is a logical clock advanced by `Event.tick`.
-/

namespace otk

/-- Identity of a running thread, the value of `std::this_thread::get_id()`. -/
abbrev ThreadId := Nat

/-- The two results `future.wait_for` can give for a promise-backed future. -/
inductive future_status
  | ready
  | timeout
  deriving DecidableEq, Repr

/-- Program counter of the worker lambda of the constructor (lines 54-63). -/
inductive WorkerPc
  /-- thread started, line 55 `get_future()` not yet executed -/
  | spawned
  /-- inside `future.wait_for(timeout)` of line 56 -/
  | waiting
  /-- `wait_for` has returned `status`, line 60 not yet executed -/
  | resolved (status : future_status)
  /-- line 60 executed, `callback(cancelled_)` of line 61 not yet entered -/
  | assigned
  /-- the callback is running -/
  | in_callback
  /-- the callback has returned, line 62 not yet executed -/
  | returned
  /-- line 62 executed and the thread function has returned -/
  | finished
  deriving DecidableEq, Repr

/-- The timer object and its worker.

`thread_` is `some id` while the handle is joinable and `none` before line 54
has assigned it and after `join()` (then `thread_.get_id()` is the default id,
equal to no running thread).  `constructed` says that the constructor has
returned.
`cancel_promise_` is true when the shared state of the promise holds a value.
`invocations`, `callback_returns` and `set_value_calls` observe the execution:
the arguments the callback was called with, how many times it returned, and how
many times `cancel_promise_.set_value()` was called. -/
structure timer where
  thread_ : Option ThreadId
  cancel_promise_ : Bool
  cancel_request_ : Bool
  cancelled_ : Bool
  ended_ : Bool
  timeout : Nat
  worker_id : ThreadId
  pc : WorkerPc
  now : Nat
  deadline : Nat
  invocations : List Bool
  callback_returns : Nat
  set_value_calls : Nat
  constructed : Bool
  deriving DecidableEq, Repr

/-- How an action on the timer ends, with the state it ends in. -/
inductive Outcome
  /-- the statement or call completed -/
  | returns (s : timer)
  /-- the thread is suspended: the action cannot complete in this state -/
  | blocks (s : timer)
  /-- an `assert` failed and aborted the process -/
  | assertion_failure (s : timer)
  /-- `set_value()` was called on a promise that already holds a value -/
  | future_error (s : timer)
  deriving DecidableEq, Repr

/-- The constructor (lines 49-64) up to the start of the worker: flags cleared,
`thread_` default-constructed, and the temporary `std::thread` of line 54 has
started worker `wid`.  The move-assignment into `thread_` is `timer.assign`.
The clock starts here. -/
def timer.construct (timeout : Nat) (wid : ThreadId) : timer :=
  { thread_ := none
    cancel_promise_ := false
    cancel_request_ := false
    cancelled_ := false
    ended_ := false
    timeout := timeout
    worker_id := wid
    pc := .spawned
    now := 0
    deadline := 0
    invocations := []
    callback_returns := 0
    set_value_calls := 0
    constructed := false }

/-- The end of the constructor: the move-assignment of line 54 makes `thread_`
the handle of the worker, finished or not, and the constructor returns.  It
happens once. -/
def timer.assign (s : timer) : Outcome :=
  if s.constructed then .blocks s
  else .returns { s with thread_ := some s.worker_id, constructed := true }

/-- One statement of the worker lambda (lines 55-62).

`wait_for` returns `ready` when the promise holds a value, `timeout` when it does
not and the timeout has elapsed, and keeps the worker suspended otherwise. -/
def timer.worker (s : timer) : Outcome :=
  match s.pc with
  | .spawned => .returns { s with pc := .waiting, deadline := s.now + s.timeout }
  | .waiting =>
    if s.cancel_promise_ then .returns { s with pc := .resolved .ready }
    else if s.deadline ≤ s.now then .returns { s with pc := .resolved .timeout }
    else .blocks s
  | .resolved status =>
    .returns { s with cancelled_ := !(decide (status = .timeout)), pc := .assigned }
  | .assigned =>
    .returns { s with invocations := s.invocations ++ [s.cancelled_], pc := .in_callback }
  | .in_callback =>
    .returns { s with callback_returns := s.callback_returns + 1, pc := .returned }
  | .returned => .returns { s with ended_ := true, pc := .finished }
  | .finished => .blocks s

/-- The method `cancel()` (lines 91-102), called by thread `caller`. -/
def timer.cancel (s : timer) (caller : ThreadId) : Outcome :=
  if some caller = s.thread_ then .returns s
  else if !s.cancel_request_ then
    if s.cancel_promise_ then
      .future_error { s with set_value_calls := s.set_value_calls + 1 }
    else
      .returns { s with
        cancel_promise_ := true
        set_value_calls := s.set_value_calls + 1
        cancel_request_ := true }
  else .returns s

/-- The method `wait()` (lines 80-87), called by thread `caller`. -/
def timer.wait (s : timer) (caller : ThreadId) : Outcome :=
  if some caller = s.thread_ then .assertion_failure s
  else if s.thread_.isSome then
    if s.pc = .finished then .returns { s with thread_ := none } else .blocks s
  else .returns s

/-- The destructor (lines 69-74), called by thread `caller`, with no other thread
taking a step between its statements.  `blocks` carries the state after
`cancel()` in which the destructor is suspended inside `wait()`. -/
def timer.destroy (s : timer) (caller : ThreadId) : Outcome :=
  if some caller = s.thread_ then .assertion_failure s
  else
    match s.cancel caller with
    | .returns s1 => s1.wait caller
    | o => o

/-- The query `ended()` (lines 107-109). -/
def timer.ended (s : timer) : Bool := s.ended_

/-- The query `cancelled()` (lines 116-118). -/
def timer.cancelled (s : timer) : Bool := s.cancelled_

/-- What can happen to a timer: time passes, the constructor finishes, the
worker executes a statement, or some thread completes a call of `cancel()` or
`wait()`. -/
inductive Event
  | tick
  | assign
  | worker
  | cancel (caller : ThreadId)
  | wait (caller : ThreadId)
  deriving DecidableEq, Repr

/-- The effect of one event. -/
def timer.step (s : timer) : Event → Outcome
  | .tick => .returns { s with now := s.now + 1 }
  | .assign => s.assign
  | .worker => s.worker
  | .cancel c => s.cancel c
  | .wait c => s.wait c

/-- An interleaving: the events are taken in order, stopping at the first one that
does not complete. -/
def timer.run (s : timer) : List Event → Outcome
  | [] => .returns s
  | e :: es =>
    match s.step e with
    | .returns s1 => s1.run es
    | o => o

/-- The states a timer can be in: those some interleaving leads to from the
start of its worker.  The states of the constructor's last step are among them;
`constructed` tells the others apart. -/
def Reachable (s : timer) : Prop :=
  ∃ timeout wid evs, (timer.construct timeout wid).run evs = .returns s

/-- The event is a call of `cancel()`. -/
def Event.isCancel : Event → Bool
  | .cancel _ => true
  | _ => false

/-- The worker's `wait_for` has not returned yet. -/
def timer.unresolved (s : timer) : Bool :=
  decide (s.pc = .spawned) || decide (s.pc = .waiting)

/-- A schedule that lets the worker run to its end from `s`: enough ticks for the
timeout to elapse and the statements the worker still has to execute. -/
def timer.completion (s : timer) : List Event :=
  match s.pc with
  | .spawned => .worker :: (List.replicate s.timeout .tick ++ List.replicate 5 .worker)
  | .waiting => List.replicate (s.deadline - s.now) .tick ++ List.replicate 5 .worker
  | .resolved _ => List.replicate 4 .worker
  | .assigned => List.replicate 3 .worker
  | .in_callback => List.replicate 2 .worker
  | .returned => List.replicate 1 .worker
  | .finished => []

/-- What every reachable state satisfies: the request flag mirrors the promise,
the handle is default until the constructor has assigned it and then joinable
until the finished worker is joined, and the flags and the
observations are those of the statement the worker has reached. -/
def timer.Inv (s : timer) : Prop :=
  s.cancel_request_ = s.cancel_promise_ ∧
  s.set_value_calls = (if s.cancel_promise_ then 1 else 0) ∧
  ((s.constructed = false ∧ s.thread_ = none) ∨
    (s.constructed = true ∧
      (s.thread_ = some s.worker_id ∨ (s.thread_ = none ∧ s.pc = .finished)))) ∧
  (match s.pc with
   | .spawned =>
     s.invocations = [] ∧ s.callback_returns = 0 ∧ s.ended_ = false ∧ s.cancelled_ = false
   | .waiting =>
     s.invocations = [] ∧ s.callback_returns = 0 ∧ s.ended_ = false ∧ s.cancelled_ = false
   | .resolved st =>
     s.invocations = [] ∧ s.callback_returns = 0 ∧ s.ended_ = false ∧ s.cancelled_ = false ∧
       (st = .ready → s.cancel_promise_ = true)
   | .assigned =>
     s.invocations = [] ∧ s.callback_returns = 0 ∧ s.ended_ = false ∧
       (s.cancelled_ = true → s.cancel_promise_ = true)
   | .in_callback =>
     s.invocations = [s.cancelled_] ∧ s.callback_returns = 0 ∧ s.ended_ = false ∧
       (s.cancelled_ = true → s.cancel_promise_ = true)
   | .returned =>
     s.invocations = [s.cancelled_] ∧ s.callback_returns = 1 ∧ s.ended_ = false ∧
       (s.cancelled_ = true → s.cancel_promise_ = true)
   | .finished =>
     s.invocations = [s.cancelled_] ∧ s.callback_returns = 1 ∧ s.ended_ = true ∧
       (s.cancelled_ = true → s.cancel_promise_ = true))

/-- The worker's `wait_for` returned `timeout`. -/
def timer.TimedOut (s : timer) : Prop :=
  match s.pc with
  | .spawned => False
  | .waiting => False
  | .resolved st => st = .timeout
  | _ => s.cancelled_ = false

/-- The promise holds a value and the worker's `wait_for` has not returned
`timeout`. -/
def timer.Signalled (s : timer) : Prop :=
  s.cancel_promise_ = true ∧
  match s.pc with
  | .spawned => True
  | .waiting => True
  | .resolved st => st = .ready
  | _ => s.cancelled_ = true

/-- No `cancel()` has taken effect: the promise holds no value, a resolved wait
resolved as `timeout`, and it did so no earlier than `timeout` ticks after
construction. -/
def timer.Untouched (s : timer) : Prop :=
  s.cancel_promise_ = false ∧
  match s.pc with
  | .spawned => True
  | .waiting => s.timeout ≤ s.deadline
  | .resolved st => st = .timeout ∧ s.timeout ≤ s.now
  | _ => s.cancelled_ = false ∧ s.timeout ≤ s.now

/-- A timer with timeout 0 whose worker `7` ran to its end with no `cancel()`:
the state after six worker statements. -/
def ended_by_timeout : timer :=
  { thread_ := some 7, cancel_promise_ := false, cancel_request_ := false,
    cancelled_ := false, ended_ := true, timeout := 0, worker_id := 7,
    pc := .finished, now := 0, deadline := 0, invocations := [false],
    callback_returns := 1, set_value_calls := 0, constructed := true }

/-- A timer with timeout 300 and worker `7`, cancelled by thread `1` at once,
whose worker has entered the callback. -/
def cancelled_in_callback : timer :=
  { thread_ := some 7, cancel_promise_ := true, cancel_request_ := true,
    cancelled_ := true, ended_ := false, timeout := 300, worker_id := 7,
    pc := .in_callback, now := 0, deadline := 300, invocations := [true],
    callback_returns := 0, set_value_calls := 1, constructed := true }

/-- A timer with timeout 300 and worker `7` suspended in `wait_for` after one
tick, nothing cancelled. -/
def sleeping : timer :=
  { thread_ := some 7, cancel_promise_ := false, cancel_request_ := false,
    cancelled_ := false, ended_ := false, timeout := 300, worker_id := 7,
    pc := .waiting, now := 1, deadline := 300, invocations := [],
    callback_returns := 0, set_value_calls := 0, constructed := true }

/-- A timer with timeout 2 and worker `7` whose `wait_for` has just returned
`timeout` after two ticks, nothing cancelled. -/
def resolved_by_timeout : timer :=
  { thread_ := some 7, cancel_promise_ := false, cancel_request_ := false,
    cancelled_ := false, ended_ := false, timeout := 2, worker_id := 7,
    pc := .resolved .timeout, now := 2, deadline := 2, invocations := [],
    callback_returns := 0, set_value_calls := 0, constructed := true }

/-- A timer with timeout 0 whose worker `7` has entered the callback before the
constructor has assigned `thread_`: the state after four worker statements. -/
def callback_before_assignment : timer :=
  { thread_ := none, cancel_promise_ := false, cancel_request_ := false,
    cancelled_ := false, ended_ := false, timeout := 0, worker_id := 7,
    pc := .in_callback, now := 0, deadline := 0, invocations := [false],
    callback_returns := 0, set_value_calls := 0, constructed := false }

/-- A timer with timeout 0 and worker `7` whose constructor has returned before
the worker executed a statement. -/
def just_constructed : timer :=
  { thread_ := some 7, cancel_promise_ := false, cancel_request_ := false,
    cancelled_ := false, ended_ := false, timeout := 0, worker_id := 7,
    pc := .spawned, now := 0, deadline := 0, invocations := [],
    callback_returns := 0, set_value_calls := 0, constructed := true }

/-- The first test scenario: a timer left alone runs its callback with `false`
once the timeout has elapsed. -/
theorem test_1_normal :
    (timer.construct 3 7).run (.assign :: (timer.construct 3 7).completion) =
      .returns { thread_ := some 7, cancel_promise_ := false, cancel_request_ := false,
                 cancelled_ := false, ended_ := true, timeout := 3, worker_id := 7,
                 pc := .finished, now := 3, deadline := 3, invocations := [false],
                 callback_returns := 1, set_value_calls := 0, constructed := true } := by
  decide

/-- The fourth test scenario: `cancel()` twice, `wait()`, then `cancel()` and
`wait()` again; the callback runs once with `true` and no time passes. -/
theorem test_4_cancel :
    (timer.construct 300 7).run [.assign, .cancel 1, .cancel 1, .worker, .worker, .worker, .worker,
        .worker, .worker, .wait 1, .cancel 1, .wait 1] =
      .returns { thread_ := none, cancel_promise_ := true, cancel_request_ := true,
                 cancelled_ := true, ended_ := true, timeout := 300, worker_id := 7,
                 pc := .finished, now := 0, deadline := 300, invocations := [true],
                 callback_returns := 1, set_value_calls := 1, constructed := true } := by
  decide

theorem Inv_construct (timeout : Nat) (wid : ThreadId) : (timer.construct timeout wid).Inv := by
  simp [timer.Inv, timer.construct]

theorem Inv_worker {s s1 : timer} (h : s.Inv) (hs : s.worker = .returns s1) : s1.Inv := by
  obtain ⟨th, pr, rq, cd, en, tmo, wid, pc, now, dl, inv, cr, sv, kd⟩ := s
  cases pc with
  | waiting =>
    simp only [timer.worker] at hs
    split at hs
    · simp at hs; subst hs; (simp_all [timer.Inv]; try tauto)
    · split at hs
      · simp at hs; subst hs; (simp_all [timer.Inv]; try tauto)
      · simp at hs
  | resolved st =>
    simp [timer.worker] at hs; subst hs
    cases st <;> (simp_all [timer.Inv]; try tauto)
  | finished => simp [timer.worker] at hs
  | _ => simp [timer.worker] at hs; subst hs; (simp_all [timer.Inv]; try tauto)

theorem Inv_cancel {s s1 : timer} (c : ThreadId) (h : s.Inv) (hs : s.cancel c = .returns s1) :
    s1.Inv := by
  obtain ⟨th, pr, rq, cd, en, tmo, wid, pc, now, dl, inv, cr, sv, kd⟩ := s
  unfold timer.cancel at hs
  split at hs
  · simp at hs; subst hs; exact h
  · split at hs
    · split at hs
      · simp at hs
      · simp at hs; subst hs
        cases pc <;> simp_all [timer.Inv]
    · simp at hs; subst hs; exact h

theorem Inv_wait {s s1 : timer} (c : ThreadId) (h : s.Inv) (hs : s.wait c = .returns s1) :
    s1.Inv := by
  obtain ⟨th, pr, rq, cd, en, tmo, wid, pc, now, dl, inv, cr, sv, kd⟩ := s
  unfold timer.wait at hs
  split at hs
  · simp at hs
  · split at hs
    · split at hs
      · simp at hs; subst hs
        simp_all [timer.Inv]
      · simp at hs
    · simp at hs; subst hs; exact h

theorem Inv_step {s s1 : timer} (e : Event) (h : s.Inv) (hs : s.step e = .returns s1) :
    s1.Inv := by
  cases e with
  | tick =>
    simp [timer.step] at hs; subst hs
    obtain ⟨h1, h2, h3, h4⟩ := h
    refine ⟨h1, h2, h3, ?_⟩
    exact h4
  | assign =>
    obtain ⟨th, pr, rq, cd, en, tmo, wid, pc, now, dl, inv, cr, sv, kd⟩ := s
    simp only [timer.step, timer.assign] at hs
    split_ifs at hs with hk
    simp only [Outcome.returns.injEq] at hs
    subst hs
    cases pc <;> simp_all [timer.Inv]
  | worker => exact Inv_worker h hs
  | cancel c => exact Inv_cancel c h hs
  | wait c => exact Inv_wait c h hs

theorem run_cons_returns {s s2 : timer} {e : Event} {es : List Event}
    (h : s.run (e :: es) = .returns s2) :
    ∃ s1, s.step e = .returns s1 ∧ s1.run es = .returns s2 := by
  simp only [timer.run] at h
  cases hst : s.step e with
  | returns s1 => rw [hst] at h; exact ⟨s1, rfl, h⟩
  | blocks s1 => rw [hst] at h; simp at h
  | assertion_failure s1 => rw [hst] at h; simp at h
  | future_error s1 => rw [hst] at h; simp at h

theorem Inv_run {s s1 : timer} (evs : List Event) (h : s.Inv) (hs : s.run evs = .returns s1) :
    s1.Inv := by
  induction evs generalizing s with
  | nil => simp [timer.run] at hs; subst hs; exact h
  | cons e es ih =>
    obtain ⟨s2, h1, h2⟩ := run_cons_returns hs
    exact ih (Inv_step e h h1) h2

theorem Inv_of_Reachable {s : timer} (h : Reachable s) : s.Inv := by
  obtain ⟨timeout, wid, evs, hr⟩ := h
  exact Inv_run evs (Inv_construct timeout wid) hr

/-- A thread other than the worker never has the identity `thread_.get_id()`. -/
theorem not_caller {s : timer} (c : ThreadId) (h : s.Inv) (hc : c ≠ s.worker_id) :
    ¬ (some c = s.thread_) := by
  have h3 := h.2.2.1
  rcases h3 with ⟨_, h3⟩ | ⟨_, h3 | ⟨h3, _⟩⟩
  · rw [h3]; simp
  · rw [h3]; simpa using hc
  · rw [h3]; simp

/-- Once the constructor has returned the handle is the worker's until the
finished worker is joined. -/
theorem thread_of_constructed {s : timer} (h : s.Inv) (hk : s.constructed = true) :
    s.thread_ = some s.worker_id ∨ (s.thread_ = none ∧ s.pc = .finished) := by
  have h3 := h.2.2.1
  rcases h3 with ⟨h4, _⟩ | ⟨_, h3⟩
  · rw [hk] at h4; cases h4
  · exact h3

theorem constructed_step {s s1 : timer} (e : Event) (hs : s.step e = .returns s1)
    (hk : s.constructed = true) : s1.constructed = true := by
  obtain ⟨th, pr, rq, cd, en, tmo, wid, pc, now, dl, inv, cr, sv, kd⟩ := s
  cases e <;> cases pc <;>
    simp only [timer.step, timer.assign, timer.worker, timer.cancel, timer.wait] at hs hk
  all_goals (try split_ifs at hs)
  all_goals (try (simp at hs))
  all_goals (try subst hs)
  all_goals (try simp_all)

theorem constructed_run {s s1 : timer} (evs : List Event) (hs : s.run evs = .returns s1)
    (hk : s.constructed = true) : s1.constructed = true := by
  induction evs generalizing s with
  | nil => simp [timer.run] at hs; subst hs; exact hk
  | cons e es ih =>
    obtain ⟨s2, h1, h2⟩ := run_cons_returns hs
    exact ih h2 (constructed_step e h1 hk)

theorem TimedOut_step {s s1 : timer} (e : Event) (h : s.TimedOut)
    (hs : s.step e = .returns s1) : s1.TimedOut := by
  obtain ⟨th, pr, rq, cd, en, tmo, wid, pc, now, dl, inv, cr, sv, kd⟩ := s
  cases e <;> cases pc <;>
    simp only [timer.step, timer.assign, timer.worker, timer.cancel, timer.wait, timer.TimedOut] at hs h
  all_goals (try split_ifs at hs)
  all_goals (try (simp at hs))
  all_goals (try subst hs)
  all_goals (try simp_all [timer.TimedOut])

theorem TimedOut_run {s s1 : timer} (evs : List Event) (h : s.TimedOut)
    (hs : s.run evs = .returns s1) : s1.TimedOut := by
  induction evs generalizing s with
  | nil => simp [timer.run] at hs; subst hs; exact h
  | cons e es ih =>
    obtain ⟨s2, h1, h2⟩ := run_cons_returns hs
    exact ih (TimedOut_step e h h1) h2

theorem Signalled_step {s s1 : timer} (e : Event) (h : s.Signalled)
    (hs : s.step e = .returns s1) : s1.Signalled := by
  obtain ⟨th, pr, rq, cd, en, tmo, wid, pc, now, dl, inv, cr, sv, kd⟩ := s
  cases e <;> cases pc <;>
    simp only [timer.step, timer.assign, timer.worker, timer.cancel, timer.wait, timer.Signalled] at hs h
  all_goals (try split_ifs at hs)
  all_goals (try (simp at hs))
  all_goals (try subst hs)
  all_goals (try simp_all [timer.Signalled])

theorem Signalled_run {s s1 : timer} (evs : List Event) (h : s.Signalled)
    (hs : s.run evs = .returns s1) : s1.Signalled := by
  induction evs generalizing s with
  | nil => simp [timer.run] at hs; subst hs; exact h
  | cons e es ih =>
    obtain ⟨s2, h1, h2⟩ := run_cons_returns hs
    exact ih (Signalled_step e h h1) h2

theorem Untouched_step {s s1 : timer} (e : Event) (h : s.Untouched) (he : e.isCancel = false)
    (hs : s.step e = .returns s1) : s1.Untouched := by
  obtain ⟨th, pr, rq, cd, en, tmo, wid, pc, now, dl, inv, cr, sv, kd⟩ := s
  cases e <;> cases pc <;>
    simp only [timer.step, timer.assign, timer.worker, timer.cancel, timer.wait, timer.Untouched,
      Event.isCancel] at hs h he
  all_goals (try split_ifs at hs)
  all_goals (try (simp at hs))
  all_goals (try subst hs)
  all_goals (try simp_all [timer.Untouched])
  all_goals (try omega)

theorem Untouched_run {s s1 : timer} (evs : List Event) (h : s.Untouched)
    (he : ∀ e ∈ evs, e.isCancel = false) (hs : s.run evs = .returns s1) : s1.Untouched := by
  induction evs generalizing s with
  | nil => simp [timer.run] at hs; subst hs; exact h
  | cons e es ih =>
    obtain ⟨s2, h1, h2⟩ := run_cons_returns hs
    exact ih (Untouched_step e h (he e (List.mem_cons_self e es)) h1)
      (fun x hx => he x (List.mem_cons_of_mem e hx)) h2

theorem TimedOut_of_Untouched {s : timer} (h : s.Untouched) (hu : s.unresolved = false) :
    s.TimedOut ∧ s.timeout ≤ s.now := by
  obtain ⟨th, pr, rq, cd, en, tmo, wid, pc, now, dl, inv, cr, sv, kd⟩ := s
  cases pc <;> simp_all [timer.Untouched, timer.TimedOut, timer.unresolved]

theorem run_append {s s1 : timer} (a b : List Event) (h : s.run a = .returns s1) :
    s.run (a ++ b) = s1.run b := by
  induction a generalizing s with
  | nil => simp [timer.run] at h; subst h; rfl
  | cons e es ih =>
    obtain ⟨s2, h1, h2⟩ := run_cons_returns h
    simp only [List.cons_append, timer.run, h1]
    exact ih h2

theorem run_ticks (s : timer) (n : Nat) :
    s.run (List.replicate n .tick) = .returns { s with now := s.now + n } := by
  induction n generalizing s with
  | zero => rfl
  | succ k ih =>
    simp only [List.replicate_succ, timer.run, timer.step]
    rw [ih]
    simp only [Outcome.returns.injEq]
    congr 1
    omega

theorem run_from_resolved (s : timer) (st : future_status) (h : s.pc = .resolved st) :
    ∃ s1, s.run (List.replicate 4 .worker) = .returns s1 ∧ s1.pc = .finished := by
  obtain ⟨th, pr, rq, cd, en, tmo, wid, pc, now, dl, inv, cr, sv, kd⟩ := s
  simp only at h
  subst h
  simp [timer.run, timer.step, timer.worker, List.replicate]

theorem run_from_waiting (s : timer) (h : s.pc = .waiting)
    (hd : s.cancel_promise_ = true ∨ s.deadline ≤ s.now) :
    ∃ s1, s.run (List.replicate 5 .worker) = .returns s1 ∧ s1.pc = .finished ∧
      s1.now = s.now := by
  obtain ⟨th, pr, rq, cd, en, tmo, wid, pc, now, dl, inv, cr, sv, kd⟩ := s
  simp only at h hd
  subst h
  cases pr
  · have hd2 : dl ≤ now := by simpa using hd
    simp [timer.run, timer.step, timer.worker, List.replicate, hd2]
  · simp [timer.run, timer.step, timer.worker, List.replicate]

/-- The worker always comes to its end: the completion schedule runs without
blocking and leaves the worker finished. -/
theorem run_completion (s : timer) :
    ∃ s1, s.run s.completion = .returns s1 ∧ s1.pc = .finished := by
  cases hpc : s.pc with
  | spawned =>
    have h1 : s.run [.worker] =
        .returns { s with pc := .waiting, deadline := s.now + s.timeout } := by
      simp [timer.run, timer.step, timer.worker, hpc]
    have h2 := run_ticks { s with pc := .waiting, deadline := s.now + s.timeout } s.timeout
    obtain ⟨s1, h3, h4, _⟩ := run_from_waiting
      { s with pc := .waiting, deadline := s.now + s.timeout, now := s.now + s.timeout }
      rfl (Or.inr (Nat.le_refl _))
    refine ⟨s1, ?_, h4⟩
    have hc : s.completion =
        [.worker] ++ (List.replicate s.timeout .tick ++ List.replicate 5 .worker) := by
      simp [timer.completion, hpc]
    rw [hc, run_append _ _ h1, run_append _ _ h2]
    exact h3
  | waiting =>
    have h2 := run_ticks s (s.deadline - s.now)
    obtain ⟨s1, h3, h4, _⟩ := run_from_waiting
      { s with now := s.now + (s.deadline - s.now) } hpc (Or.inr (by simp; omega))
    refine ⟨s1, ?_, h4⟩
    have hc : s.completion =
        List.replicate (s.deadline - s.now) .tick ++ List.replicate 5 .worker := by
      simp [timer.completion, hpc]
    rw [hc, run_append _ _ h2]
    exact h3
  | resolved st =>
    have hc : s.completion = List.replicate 4 .worker := by simp [timer.completion, hpc]
    rw [hc]
    exact run_from_resolved s st hpc
  | assigned =>
    obtain ⟨th, pr, rq, cd, en, tmo, wid, pc, now, dl, inv, cr, sv, kd⟩ := s
    simp only at hpc
    subst hpc
    simp [timer.completion, timer.run, timer.step, timer.worker, List.replicate]
  | in_callback =>
    obtain ⟨th, pr, rq, cd, en, tmo, wid, pc, now, dl, inv, cr, sv, kd⟩ := s
    simp only at hpc
    subst hpc
    simp [timer.completion, timer.run, timer.step, timer.worker, List.replicate]
  | returned =>
    obtain ⟨th, pr, rq, cd, en, tmo, wid, pc, now, dl, inv, cr, sv, kd⟩ := s
    simp only at hpc
    subst hpc
    simp [timer.completion, timer.run, timer.step, timer.worker, List.replicate]
  | finished =>
    refine ⟨s, ?_, hpc⟩
    simp [timer.completion, hpc, timer.run]

/-- A finished worker can be joined by any thread that passes the assertion. -/
theorem wait_of_finished {s : timer} (c : ThreadId) (h : s.Inv) (hf : s.pc = .finished)
    (hc : c ≠ s.worker_id) : ∃ s1, s.wait c = .returns s1 := by
  have h3 := h.2.2.1
  unfold timer.wait
  have hne : ¬ (some c = s.thread_) := not_caller c h hc
  rw [if_neg hne, if_pos hf]
  split_ifs
  · exact ⟨_, rfl⟩
  · exact ⟨_, rfl⟩

theorem ended_step {s s1 : timer} (e : Event) (h : s.Inv) (hs : s.step e = .returns s1)
    (he : s.ended_ = true) : s1.ended_ = true ∧ s1.cancelled_ = s.cancelled_ := by
  obtain ⟨th, pr, rq, cd, en, tmo, wid, pc, now, dl, inv, cr, sv, kd⟩ := s
  cases e <;> cases pc <;>
    simp only [timer.step, timer.assign, timer.worker, timer.cancel, timer.wait, timer.Inv] at hs h he
  all_goals (try split_ifs at hs)
  all_goals (try (simp at hs))
  all_goals (try subst hs)
  all_goals (try simp_all)

theorem ended_run {s s1 : timer} (evs : List Event) (h : s.Inv) (hs : s.run evs = .returns s1)
    (he : s.ended_ = true) : s1.ended_ = true ∧ s1.cancelled_ = s.cancelled_ := by
  induction evs generalizing s with
  | nil => simp [timer.run] at hs; subst hs; exact ⟨he, rfl⟩
  | cons e es ih =>
    obtain ⟨s2, h1, h2⟩ := run_cons_returns hs
    obtain ⟨h3, h4⟩ := ended_step e h h1 he
    obtain ⟨h5, h6⟩ := ih (Inv_step e h h1) h2 h3
    exact ⟨h5, h6.trans h4⟩

theorem ended_set_by_worker {s s1 : timer} (e : Event) (h : s.Inv)
    (hs : s.step e = .returns s1) (he : s.ended_ = false) (he1 : s1.ended_ = true) :
    e = .worker ∧ s.pc = .returned ∧ s.callback_returns = 1 ∧ s.invocations.length = 1 := by
  obtain ⟨th, pr, rq, cd, en, tmo, wid, pc, now, dl, inv, cr, sv, kd⟩ := s
  cases e <;> cases pc <;>
    simp only [timer.step, timer.assign, timer.worker, timer.cancel, timer.wait, timer.Inv] at hs h he
  all_goals (try split_ifs at hs)
  all_goals (try (simp at hs))
  all_goals (try subst hs)
  all_goals (try simp_all)

theorem requested_step {s s1 : timer} (e : Event) (hs : s.step e = .returns s1)
    (hq : s.cancel_request_ = true) : s1.cancel_request_ = true := by
  obtain ⟨th, pr, rq, cd, en, tmo, wid, pc, now, dl, inv, cr, sv, kd⟩ := s
  cases e <;> cases pc <;>
    simp only [timer.step, timer.assign, timer.worker, timer.cancel, timer.wait] at hs hq
  all_goals (try split_ifs at hs)
  all_goals (try (simp at hs))
  all_goals (try subst hs)
  all_goals (try simp_all)

theorem requested_run {s s1 : timer} (evs : List Event) (hs : s.run evs = .returns s1)
    (hq : s.cancel_request_ = true) : s1.cancel_request_ = true := by
  induction evs generalizing s with
  | nil => simp [timer.run] at hs; subst hs; exact hq
  | cons e es ih =>
    obtain ⟨s2, h1, h2⟩ := run_cons_returns hs
    exact ih h2 (requested_step e h1 hq)

theorem cancel_of_requested (s : timer) (c : ThreadId) (hq : s.cancel_request_ = true) :
    s.cancel c = .returns s := by
  unfold timer.cancel
  split_ifs <;> simp_all

/-- What a call of `cancel()` by a thread other than the joinable worker does. -/
theorem cancel_of_other {s : timer} (c : ThreadId) (h : s.Inv) (hc : c ≠ s.worker_id) :
    s.cancel c = .returns
      (if s.cancel_request_ then s
       else { s with cancel_promise_ := true
                     set_value_calls := s.set_value_calls + 1
                     cancel_request_ := true }) := by
  have h1 := h.1
  have h3 := h.2.2.1
  have hne : ¬ (some c = s.thread_) := not_caller c h hc
  unfold timer.cancel
  rw [if_neg hne]
  cases hq : s.cancel_request_
  · have hp : s.cancel_promise_ = false := by rw [← h1]; exact hq
    simp [hp]
  · simp

theorem ended_by_timeout_reachable : Reachable ended_by_timeout :=
  ⟨0, 7, [.assign, .worker, .worker, .worker, .worker, .worker, .worker], by decide⟩

theorem cancelled_in_callback_reachable : Reachable cancelled_in_callback :=
  ⟨300, 7, [.assign, .cancel 1, .worker, .worker, .worker, .worker], by decide⟩

theorem callback_before_assignment_reachable : Reachable callback_before_assignment :=
  ⟨0, 7, [.worker, .worker, .worker, .worker], by decide⟩

theorem sleeping_reachable : Reachable sleeping :=
  ⟨300, 7, [.assign, .worker, .tick], by decide⟩

/-- C1: in every state reachable from construction by any interleaving of
`cancel()`, `wait()` and worker steps the callback has been invoked at most once,
and in every state where the worker has finished, which are the states where
`ended()` is true, it has been invoked exactly once. -/
theorem callback_invoked_once (s : timer) (h : Reachable s) :
    s.invocations.length ≤ 1 ∧
    (s.ended = true → s.invocations.length = 1) ∧
    (s.pc = .finished ↔ s.ended = true) := by
  have hinv := Inv_of_Reachable h
  obtain ⟨th, pr, rq, cd, en, tmo, wid, pc, now, dl, inv, cr, sv, kd⟩ := s
  cases pc <;> simp_all [timer.Inv, timer.ended]

theorem callback_invoked_once_witness :
    Reachable ended_by_timeout ∧ ended_by_timeout.invocations.length = 1 :=
  ⟨ended_by_timeout_reachable,
    (callback_invoked_once ended_by_timeout ended_by_timeout_reachable).2.1 rfl⟩

/-- C9: `ended_` goes from false to true at most once and only after the callback
has returned.  In every reachable state `ended()` true implies that the callback
has been invoked and has returned; no event and no sequence of events takes a
state with `ended()` true to one with `ended()` false or changes `cancelled()`;
and the only event that sets `ended_` is the worker statement after the
callback's return. -/
theorem ended_only_after_callback (s : timer) (h : Reachable s) :
    (s.ended = true → s.invocations.length = 1 ∧ s.callback_returns = 1) ∧
    (∀ e s1, s.step e = .returns s1 → s.ended = true →
      s1.ended = true ∧ s1.cancelled = s.cancelled) ∧
    (∀ evs s1, s.run evs = .returns s1 → s.ended = true →
      s1.ended = true ∧ s1.cancelled = s.cancelled) ∧
    (∀ e s1, s.step e = .returns s1 → s.ended = false → s1.ended = true →
      e = .worker ∧ s.pc = .returned ∧ s.callback_returns = 1 ∧
        s.invocations.length = 1) := by
  have hinv := Inv_of_Reachable h
  refine ⟨?_, ?_, ?_, ?_⟩
  · intro he
    obtain ⟨th, pr, rq, cd, en, tmo, wid, pc, now, dl, inv, cr, sv, kd⟩ := s
    cases pc <;> simp_all [timer.Inv, timer.ended]
  · intro e s1 hs he
    exact ended_step e hinv hs he
  · intro evs s1 hs he
    exact ended_run evs hinv hs he
  · intro e s1 hs he he1
    exact ended_set_by_worker e hinv hs he he1

theorem ended_only_after_callback_witness :
    Reachable ended_by_timeout ∧
    ended_by_timeout.invocations.length = 1 ∧ ended_by_timeout.callback_returns = 1 :=
  ⟨ended_by_timeout_reachable,
    (ended_only_after_callback ended_by_timeout ended_by_timeout_reachable).1 rfl⟩

/-- After the constructor has returned, `cancel()` called by the worker from the
running callback, and by any caller whose identity is `thread_.get_id()`,
returns the state unchanged. -/
theorem cancel_from_worker_of_constructed (s : timer) (c : ThreadId)
    (h : s.thread_ = some c ∨
      (Reachable s ∧ s.constructed = true ∧ s.pc = .in_callback ∧ c = s.worker_id)) :
    s.cancel c = .returns s := by
  have hth : some c = s.thread_ := by
    rcases h with h | ⟨hr, hk, hpc, hc⟩
    · exact h.symm
    · have h3 := thread_of_constructed (Inv_of_Reachable hr) hk
      rcases h3 with h3 | ⟨_, h4⟩
      · rw [h3, hc]
      · rw [hpc] at h4; cases h4
  unfold timer.cancel
  rw [if_pos hth]

/-- C10 at the failing state.  With timeout 0 the worker is in the callback
before line 54 has assigned `thread_`.  `cancel()` called there by the worker,
thread `7`, compares its identity with the default id, goes on, sets the promise
and `cancel_request_`: it is not a no-op. -/
theorem cancel_from_worker_before_assignment :
    Reachable callback_before_assignment ∧
    callback_before_assignment.pc = .in_callback ∧
    callback_before_assignment.worker_id = 7 ∧
    callback_before_assignment.cancel 7 =
      .returns { callback_before_assignment with
        cancel_promise_ := true, cancel_request_ := true, set_value_calls := 1 } ∧
    callback_before_assignment.cancel 7 ≠ .returns callback_before_assignment :=
  ⟨callback_before_assignment_reachable, rfl, rfl, by decide, by decide⟩

/-- After the constructor has returned, `wait()` and the destructor called by
the worker from the running callback end in the assertion failure with the
state unchanged; in every reachable state the assertions pass for a caller
other than the worker. -/
theorem wait_destroy_from_worker_of_constructed (s : timer) (h : Reachable s) :
    (s.constructed = true → s.pc = .in_callback →
      s.wait s.worker_id = .assertion_failure s ∧
      s.destroy s.worker_id = .assertion_failure s ∧
      s.thread_ = some s.worker_id) ∧
    (∀ c, c ≠ s.worker_id →
      ∀ s1, s.wait c ≠ .assertion_failure s1 ∧ s.destroy c ≠ .assertion_failure s1) := by
  have hinv := Inv_of_Reachable h
  constructor
  · intro hk hpc
    have hth : s.thread_ = some s.worker_id := by
      rcases thread_of_constructed hinv hk with h3 | ⟨_, h4⟩
      · exact h3
      · rw [hpc] at h4; cases h4
    refine ⟨?_, ?_, hth⟩
    · unfold timer.wait
      rw [if_pos hth.symm]
    · unfold timer.destroy
      rw [if_pos hth.symm]
  · intro c hc s1
    have hne : ¬ (some c = s.thread_) := not_caller c hinv hc
    have hw : ∀ (s2 s3 : timer), s2.thread_ = s.thread_ →
        s2.wait c ≠ .assertion_failure s3 := by
      intro s2 s3 h2
      unfold timer.wait
      rw [h2, if_neg hne]
      split_ifs <;> simp
    refine ⟨hw s s1 rfl, ?_⟩
    unfold timer.destroy
    rw [if_neg hne, cancel_of_other c hinv hc]
    simp only
    apply hw
    split_ifs <;> rfl

/-- C8 at the failing state.  With timeout 0 the worker is in the callback
before line 54 has assigned `thread_`.  `wait()` called there by the worker,
thread `7`, passes the assertion, finds the handle not joinable and returns;
the destructor passes the assertion too, cancels and returns.  Neither fails. -/
theorem wait_destroy_from_worker_before_assignment :
    Reachable callback_before_assignment ∧
    callback_before_assignment.pc = .in_callback ∧
    callback_before_assignment.worker_id = 7 ∧
    callback_before_assignment.wait 7 = .returns callback_before_assignment ∧
    callback_before_assignment.destroy 7 =
      .returns { callback_before_assignment with
        cancel_promise_ := true, cancel_request_ := true, set_value_calls := 1 } :=
  ⟨callback_before_assignment_reachable, rfl, rfl, by decide, by decide⟩

theorem set_value_calls_le_one {s : timer} (h : s.Inv) : s.set_value_calls ≤ 1 := by
  have h2 := h.2.1
  rw [h2]
  split_ifs <;> simp

theorem no_future_error {s : timer} (h : s.Inv) (c : ThreadId) (s1 : timer) :
    s.cancel c ≠ .future_error s1 := by
  have h1 := h.1
  unfold timer.cancel
  split_ifs with ha hb hc
  · simp
  · exfalso
    rw [h1, hc] at hb
    simp at hb
  · simp
  · simp

/-- C6: `cancel()` is idempotent.  In every reachable state a `cancel()` from a
non-worker thread returns with `cancel_request_` true, and any later `cancel()`,
directly after it or after any further events, returns the state it was called
in unchanged; `cancel_request_` once true stays true, `set_value()` has been
called at most once in every reachable state, and no `cancel()` ever calls it on
a promise that already holds a value. -/
theorem cancel_idempotent (s : timer) (c1 c2 : ThreadId) (h : Reachable s)
    (h1 : c1 ≠ s.worker_id) :
    ∃ s1, s.cancel c1 = .returns s1 ∧ s1.cancel c2 = .returns s1 ∧
      s1.cancel_request_ = true ∧ s1.set_value_calls = 1 ∧
      s.set_value_calls ≤ 1 ∧
      (s.cancel_request_ = true → s1 = s) ∧
      (∀ s2, s.cancel c2 ≠ .future_error s2) ∧
      (∀ evs s2, s1.run evs = .returns s2 →
        s2.cancel_request_ = true ∧ s2.set_value_calls = 1 ∧
        s2.cancel c2 = .returns s2) := by
  have hinv := Inv_of_Reachable h
  have hc := cancel_of_other c1 hinv h1
  have hinv1 := Inv_cancel c1 hinv hc
  have hq : (if s.cancel_request_ then s
       else { s with cancel_promise_ := true
                     set_value_calls := s.set_value_calls + 1
                     cancel_request_ := true }).cancel_request_ = true := by
    split_ifs with hq
    · exact hq
    · rfl
  have hsv : ∀ s2 : timer, s2.Inv → s2.cancel_request_ = true → s2.set_value_calls = 1 := by
    intro s2 hi hq2
    have ha := hi.1
    have hb := hi.2.1
    rw [← ha, hq2] at hb
    simpa using hb
  refine ⟨_, hc, cancel_of_requested _ c2 hq, hq, hsv _ hinv1 hq,
    set_value_calls_le_one hinv, ?_, no_future_error hinv c2, ?_⟩
  · intro hq0
    rw [if_pos hq0]
  · intro evs s2 hs
    have hq2 := requested_run evs hs hq
    exact ⟨hq2, hsv _ (Inv_run evs hinv1 hs) hq2, cancel_of_requested _ c2 hq2⟩

theorem cancel_idempotent_witness :
    ∃ s1, sleeping.cancel 1 = .returns s1 ∧ s1.cancel 2 = .returns s1 ∧
      s1.cancel_request_ = true ∧ s1.set_value_calls = 1 ∧
      sleeping.set_value_calls ≤ 1 ∧
      (sleeping.cancel_request_ = true → s1 = sleeping) ∧
      (∀ s2, sleeping.cancel 2 ≠ .future_error s2) ∧
      (∀ evs s2, s1.run evs = .returns s2 →
        s2.cancel_request_ = true ∧ s2.set_value_calls = 1 ∧
        s2.cancel 2 = .returns s2) :=
  cancel_idempotent sleeping 1 2 sleeping_reachable (by decide)

/-- C7, as stated, fails: on the timer that ended by timeout, `cancel()` by
thread `1` sets the promise and `cancel_request_`, so the state it returns is
not the state it was called in. -/
theorem cancel_after_ended_changes_state :
    Reachable ended_by_timeout ∧ ended_by_timeout.ended = true ∧
    ended_by_timeout.cancel 1 =
      .returns { ended_by_timeout with
        cancel_promise_ := true, cancel_request_ := true, set_value_calls := 1 } ∧
    ended_by_timeout.cancel 1 ≠ .returns ended_by_timeout :=
  ⟨ended_by_timeout_reachable, rfl, by decide, by decide⟩

/-- C7, amended: in every reachable state in which `ended()` is true, `cancel()`
returns and leaves `ended_`, `cancelled_`, the callback's invocations and
returns, the worker and the thread handle unchanged; the returned state differs
from the old one at most in `cancel_request_`, the promise and the count of
`set_value()` calls, and not at all when a cancellation had been requested
before. -/
theorem cancel_after_ended (s : timer) (c : ThreadId) (h : Reachable s)
    (he : s.ended = true) :
    ∃ s1, s.cancel c = .returns s1 ∧
      s1.ended = true ∧ s1.cancelled = s.cancelled ∧
      s1.invocations = s.invocations ∧ s1.callback_returns = s.callback_returns ∧
      s1 = { s with cancel_promise_ := s1.cancel_promise_
                    cancel_request_ := s1.cancel_request_
                    set_value_calls := s1.set_value_calls } ∧
      (s.cancel_request_ = true → s1 = s) := by
  have hinv := Inv_of_Reachable h
  have h1 := hinv.1
  unfold timer.cancel
  split_ifs with ha hb hc
  · exact ⟨s, rfl, he, rfl, rfl, rfl, rfl, fun _ => rfl⟩
  · exfalso
    rw [h1, hc] at hb
    simp at hb
  · refine ⟨_, rfl, he, rfl, rfl, rfl, rfl, ?_⟩
    intro hq
    rw [hq] at hb
    simp at hb
  · exact ⟨s, rfl, he, rfl, rfl, rfl, rfl, fun _ => rfl⟩

theorem cancel_after_ended_witness :
    ∃ s1, ended_by_timeout.cancel 1 = .returns s1 ∧
      s1.ended = true ∧ s1.cancelled = ended_by_timeout.cancelled ∧
      s1.invocations = ended_by_timeout.invocations ∧
      s1.callback_returns = ended_by_timeout.callback_returns ∧
      s1 = { ended_by_timeout with cancel_promise_ := s1.cancel_promise_
                                   cancel_request_ := s1.cancel_request_
                                   set_value_calls := s1.set_value_calls } ∧
      (ended_by_timeout.cancel_request_ = true → s1 = ended_by_timeout) :=
  cancel_after_ended ended_by_timeout 1 ended_by_timeout_reachable rfl

theorem frame_step {s s1 : timer} (e : Event) (hs : s.step e = .returns s1) :
    s1.timeout = s.timeout ∧ s1.worker_id = s.worker_id := by
  obtain ⟨th, pr, rq, cd, en, tmo, wid, pc, now, dl, inv, cr, sv, kd⟩ := s
  cases e <;> cases pc <;>
    simp only [timer.step, timer.assign, timer.worker, timer.cancel, timer.wait] at hs
  all_goals (try split_ifs at hs)
  all_goals (try (simp at hs))
  all_goals (try subst hs)
  all_goals (try simp_all)

theorem frame_run {s s1 : timer} (evs : List Event) (hs : s.run evs = .returns s1) :
    s1.timeout = s.timeout ∧ s1.worker_id = s.worker_id := by
  induction evs generalizing s with
  | nil => simp [timer.run] at hs; subst hs; exact ⟨rfl, rfl⟩
  | cons e es ih =>
    obtain ⟨s2, h1, h2⟩ := run_cons_returns hs
    obtain ⟨h3, h4⟩ := frame_step e h1
    obtain ⟨h5, h6⟩ := ih h2
    exact ⟨h5.trans h3, h6.trans h4⟩

theorem observed_of_TimedOut {s : timer} (h : s.Inv) (ht : s.TimedOut) :
    (∀ b ∈ s.invocations, b = false) ∧
    (s.ended_ = true → s.invocations = [false] ∧ s.cancelled_ = false) ∧
    (s.pc = .finished → s.ended_ = true) := by
  obtain ⟨th, pr, rq, cd, en, tmo, wid, pc, now, dl, inv, cr, sv, kd⟩ := s
  cases pc <;> simp_all [timer.Inv, timer.TimedOut]

theorem observed_of_Signalled {s : timer} (h : s.Inv) (ht : s.Signalled) :
    (∀ b ∈ s.invocations, b = true) ∧
    (s.ended_ = true → s.invocations = [true] ∧ s.cancelled_ = true) ∧
    (s.pc = .finished → s.ended_ = true ∧ s.callback_returns = 1) := by
  obtain ⟨th, pr, rq, cd, en, tmo, wid, pc, now, dl, inv, cr, sv, kd⟩ := s
  cases pc <;> simp_all [timer.Inv, timer.Signalled]

/-- After the constructor has returned, a `wait()` that returns found the worker
finished and leaves the handle not joinable, changing nothing else. -/
theorem wait_returns_finished {s s1 : timer} (c : ThreadId) (h : s.Inv)
    (hk : s.constructed = true) (hw : s.wait c = .returns s1) :
    s.pc = .finished ∧ s1 = { s with thread_ := none } := by
  have h3 := thread_of_constructed h hk
  unfold timer.wait at hw
  split_ifs at hw with ha hb hc
  · simp only [Outcome.returns.injEq] at hw
    exact ⟨hc, hw.symm⟩
  · simp only [Outcome.returns.injEq] at hw
    rcases h3 with h3 | ⟨h3, h4⟩
    · rw [h3] at hb; simp at hb
    · refine ⟨h4, ?_⟩
      rw [← hw]
      obtain ⟨th, pr, rq, cd, en, tmo, wid, pc, now, dl, inv, cr, sv, kd⟩ := s
      simp only at h3
      subst h3
      rfl

theorem Signalled_of_cancel {s : timer} (c : ThreadId) (h : s.Inv) (hc : c ≠ s.worker_id)
    (hu : s.unresolved = true) :
    ∃ s1, s.cancel c = .returns s1 ∧ s1.Signalled ∧ s1.unresolved = true ∧
      s1.thread_ = s.thread_ ∧ s1.worker_id = s.worker_id ∧
      s1.constructed = s.constructed := by
  have hcan := cancel_of_other c h hc
  refine ⟨_, hcan, ?_⟩
  obtain ⟨th, pr, rq, cd, en, tmo, wid, pc, now, dl, inv, cr, sv, kd⟩ := s
  cases pc <;> simp [timer.unresolved] at hu
  all_goals (cases rq <;> simp_all [timer.Inv, timer.Signalled, timer.unresolved])

/-- C4: every call of `wait()` by a non-worker thread, in any reachable state
of a constructed timer (a thread other than the worker has the timer only once
the constructor has returned), returns only when the worker has finished: the state it returns has `ended()`
true and the callback invoked and returned once, and while the worker has not
finished the call stays blocked.  A later `wait()` by any thread returns the
state unchanged, as does a `wait()` on a timer whose worker was already joined.
The call does return: once the worker has run to its end, which it always can,
`wait()` returns. -/
theorem wait_returns_after_end (s : timer) (c : ThreadId) (h : Reachable s)
    (hk : s.constructed = true) (hc : c ≠ s.worker_id) :
    (∀ s1, s.wait c = .returns s1 →
      s.pc = .finished ∧ s1.ended = true ∧ s1.callback_returns = 1 ∧
      s1.invocations.length = 1 ∧ s1 = { s with thread_ := none } ∧
      ∀ c2, s1.wait c2 = .returns s1) ∧
    (s.pc ≠ .finished → s.wait c = .blocks s) ∧
    (s.thread_ = none → s.wait c = .returns s) ∧
    (∃ s2 s3, s.run s.completion = .returns s2 ∧ s2.wait c = .returns s3) := by
  have hinv := Inv_of_Reachable h
  have h3 := thread_of_constructed hinv hk
  refine ⟨?_, ?_, ?_, ?_⟩
  · intro s1 hw
    obtain ⟨hf, hs1⟩ := wait_returns_finished c hinv hk hw
    have hinv1 := Inv_wait c hinv hw
    have hthr : s1.thread_ = none := by rw [hs1]
    have hpc1 : s1.pc = .finished := by rw [hs1]; exact hf
    refine ⟨hf, ?_, ?_, ?_, hs1, ?_⟩
    · obtain ⟨th, pr, rq, cd, en, tmo, wid, pc, now, dl, inv, cr, sv, kd⟩ := s1
      simp only at hpc1
      subst hpc1
      simp_all [timer.Inv, timer.ended]
    · obtain ⟨th, pr, rq, cd, en, tmo, wid, pc, now, dl, inv, cr, sv, kd⟩ := s1
      simp only at hpc1
      subst hpc1
      simp_all [timer.Inv]
    · obtain ⟨th, pr, rq, cd, en, tmo, wid, pc, now, dl, inv, cr, sv, kd⟩ := s1
      simp only at hpc1
      subst hpc1
      simp_all [timer.Inv]
    · intro c2
      unfold timer.wait
      rw [hthr]
      simp
  · intro hpc
    have hth : s.thread_ = some s.worker_id := by
      rcases h3 with h3 | ⟨_, h4⟩
      · exact h3
      · exact absurd h4 hpc
    unfold timer.wait
    rw [hth]
    have hne : ¬ (some c = some s.worker_id) := by simpa using hc
    rw [if_neg hne, if_neg hpc]
    simp
  · intro hth
    unfold timer.wait
    rw [hth]
    simp
  · obtain ⟨s2, hr, hf⟩ := run_completion s
    have hinv2 := Inv_run _ hinv hr
    have hw2 := (frame_run _ hr).2
    obtain ⟨s3, hw⟩ := wait_of_finished c hinv2 hf (by rw [hw2]; exact hc)
    exact ⟨s2, s3, hr, hw⟩

theorem wait_returns_after_end_witness :
    Reachable sleeping ∧ sleeping.wait 1 = .blocks sleeping ∧
    ∃ s2 s3, sleeping.run sleeping.completion = .returns s2 ∧ s2.wait 1 = .returns s3 :=
  ⟨sleeping_reachable,
    (wait_returns_after_end sleeping 1 sleeping_reachable rfl (by decide)).2.1 (by decide),
    (wait_returns_after_end sleeping 1 sleeping_reachable rfl (by decide)).2.2.2⟩

/-- C3: for every timeout, zero included, and every reachable state of a
constructed timer (a thread other than the worker has the timer only once the
constructor has returned) in which the worker's `wait_for` has not returned,
the worker not yet waiting included, a `cancel()` by a non-worker thread
returns, and in every state any further events
lead to, the callback has been invoked with `true` only; when `ended()` is true
it was invoked exactly once with `true` and `cancelled()` is true; and every
`wait()` that returns then does so with `ended()` and `cancelled()` true.  Such
a `wait()` exists: after the worker's remaining statements it returns. -/
theorem cancel_before_resolution (timeout : Nat) (wid : ThreadId) (evs : List Event)
    (s : timer) (c : ThreadId)
    (hrun : (timer.construct timeout wid).run evs = .returns s)
    (hk : s.constructed = true) (hc : c ≠ wid) (hu : s.unresolved = true) :
    ∃ s1, s.cancel c = .returns s1 ∧
      (∀ post s2, s1.run post = .returns s2 →
        (∀ b ∈ s2.invocations, b = true) ∧
        (s2.ended = true → s2.invocations = [true] ∧ s2.cancelled = true) ∧
        (∀ c2 s3, s2.wait c2 = .returns s3 →
          s3.ended = true ∧ s3.cancelled = true ∧ s3.invocations = [true])) ∧
      (∃ s2 s3, s1.run s1.completion = .returns s2 ∧ s2.wait c = .returns s3) := by
  have hinv := Inv_run evs (Inv_construct timeout wid) hrun
  have hwid : s.worker_id = wid := (frame_run evs hrun).2
  have hc1 : c ≠ s.worker_id := by rw [hwid]; exact hc
  obtain ⟨s1, hcan, hsig, _, _, hw1, hk1⟩ := Signalled_of_cancel c hinv hc1 hu
  have hk1 : s1.constructed = true := hk1.trans hk
  have hinv1 := Inv_cancel c hinv hcan
  refine ⟨s1, hcan, ?_, ?_⟩
  · intro post s2 hpost
    have hinv2 := Inv_run post hinv1 hpost
    have hsig2 := Signalled_run post hsig hpost
    obtain ⟨ha, hb, hd⟩ := observed_of_Signalled hinv2 hsig2
    refine ⟨ha, hb, ?_⟩
    intro c2 s3 hw
    obtain ⟨hf, hs3⟩ := wait_returns_finished c2 hinv2 (constructed_run post hpost hk1) hw
    have he := (hd hf).1
    obtain ⟨hi, hcd⟩ := hb he
    rw [hs3]
    exact ⟨he, hcd, hi⟩
  · obtain ⟨s2, hr, hf⟩ := run_completion s1
    have hinv2 := Inv_run _ hinv1 hr
    have hw2 := (frame_run _ hr).2
    obtain ⟨s3, hw⟩ := wait_of_finished c hinv2 hf (by rw [hw2, hw1]; exact hc1)
    exact ⟨s2, s3, hr, hw⟩

theorem cancel_before_resolution_witness :
    ∃ s1, just_constructed.cancel 1 = .returns s1 ∧
      (∀ post s2, s1.run post = .returns s2 →
        (∀ b ∈ s2.invocations, b = true) ∧
        (s2.ended = true → s2.invocations = [true] ∧ s2.cancelled = true) ∧
        (∀ c2 s3, s2.wait c2 = .returns s3 →
          s3.ended = true ∧ s3.cancelled = true ∧ s3.invocations = [true])) ∧
      (∃ s2 s3, s1.run s1.completion = .returns s2 ∧ s2.wait 1 = .returns s3) :=
  cancel_before_resolution 0 7 [.assign] just_constructed 1 (by decide) rfl (by decide) rfl

/-- Once the promise holds a value, the worker needs no time to pass: from an
unresolved state its remaining statements, at most six, run without a tick. -/
theorem run_of_signalled (s : timer) (hu : s.unresolved = true)
    (hp : s.cancel_promise_ = true) :
    ∃ n s1, n ≤ 6 ∧ s.run (List.replicate n .worker) = .returns s1 ∧
      s1.pc = .finished ∧ s1.now = s.now := by
  cases hpc : s.pc with
  | spawned =>
    have h1 : s.run [.worker] =
        .returns { s with pc := .waiting, deadline := s.now + s.timeout } := by
      simp [timer.run, timer.step, timer.worker, hpc]
    obtain ⟨s1, h2, h3, h4⟩ := run_from_waiting
      { s with pc := .waiting, deadline := s.now + s.timeout } rfl (Or.inl hp)
    refine ⟨6, s1, by decide, ?_, h3, h4⟩
    have hl : List.replicate 6 Event.worker = [.worker] ++ List.replicate 5 .worker := rfl
    rw [hl, run_append _ _ h1]
    exact h2
  | waiting =>
    obtain ⟨s1, h2, h3, h4⟩ := run_from_waiting s hpc (Or.inl hp)
    exact ⟨5, s1, by decide, h2, h3, h4⟩
  | resolved st => simp [timer.unresolved, hpc] at hu
  | assigned => simp [timer.unresolved, hpc] at hu
  | in_callback => simp [timer.unresolved, hpc] at hu
  | returned => simp [timer.unresolved, hpc] at hu
  | finished => simp [timer.unresolved, hpc] at hu

/-- C5: destroying a constructed timer from a non-worker thread (a destructor
runs only once the constructor has returned) is `cancel()` followed by
`wait()`.  When the worker's `wait_for` has not returned and no cancellation was
requested, the destructor's `cancel()` sets the promise and its `wait()` is
suspended; whatever events follow, when that `wait()` returns the callback has
been invoked exactly once, with `true`, and has returned, and the worker has
finished.  The `wait()` does return, after at most six worker statements and
with no time passing. -/
theorem destroy_cancels_then_waits (s : timer) (c : ThreadId) (h : Reachable s)
    (hk : s.constructed = true) (hc : c ≠ s.worker_id) :
    (∃ s1, s.cancel c = .returns s1 ∧ s.destroy c = s1.wait c) ∧
    (s.unresolved = true → s.cancel_request_ = false →
      ∃ s1, s.cancel c = .returns s1 ∧ s1.cancel_promise_ = true ∧
        s.destroy c = .blocks s1 ∧
        (∀ evs s2 s3, s1.run evs = .returns s2 → s2.wait c = .returns s3 →
          s3.invocations = [true] ∧ s3.callback_returns = 1 ∧ s3.ended = true ∧
          s3.cancelled = true ∧ s3.pc = .finished ∧ s3.thread_ = none) ∧
        (∃ n s2 s3, n ≤ 6 ∧ s1.run (List.replicate n .worker) = .returns s2 ∧
          s2.now = s1.now ∧ s2.wait c = .returns s3)) := by
  have hinv := Inv_of_Reachable h
  have hne : ¬ (some c = s.thread_) := not_caller c hinv hc
  have hcan := cancel_of_other c hinv hc
  have hd : s.destroy c = (if s.cancel_request_ then s
       else { s with cancel_promise_ := true
                     set_value_calls := s.set_value_calls + 1
                     cancel_request_ := true }).wait c := by
    unfold timer.destroy
    rw [if_neg hne, hcan]
  refine ⟨⟨_, hcan, hd⟩, ?_⟩
  intro hu hq
  obtain ⟨s1, hcan1, hsig, hu1, hth0, hw1, hk0⟩ := Signalled_of_cancel c hinv hc hu
  have hk1 : s1.constructed = true := hk0.trans hk
  have hinv1 := Inv_cancel c hinv hcan1
  have hd1 : s.destroy c = s1.wait c := by
    rw [hd, ← Outcome.returns.inj (hcan.symm.trans hcan1)]
  have hpc1 : s1.pc ≠ .finished := by
    intro hf
    simp [timer.unresolved, hf] at hu1
  have hth1 : s1.thread_ = some s.worker_id := by
    rcases thread_of_constructed hinv1 hk1 with h3 | ⟨_, h4⟩
    · rw [h3, hw1]
    · exact absurd h4 hpc1
  refine ⟨s1, hcan1, hsig.1, ?_, ?_, ?_⟩
  · rw [hd1]
    unfold timer.wait
    rw [hth1]
    have hne1 : ¬ (some c = some s.worker_id) := by simpa using hc
    rw [if_neg hne1, if_neg hpc1]
    simp
  · intro evs s2 s3 hr hw
    have hinv2 := Inv_run evs hinv1 hr
    have hsig2 := Signalled_run evs hsig hr
    obtain ⟨_, hb, hdd⟩ := observed_of_Signalled hinv2 hsig2
    obtain ⟨hf, hs3⟩ := wait_returns_finished c hinv2 (constructed_run evs hr hk1) hw
    obtain ⟨he, hcr⟩ := hdd hf
    obtain ⟨hi, hcd⟩ := hb he
    rw [hs3]
    exact ⟨hi, hcr, he, hcd, hf, rfl⟩
  · obtain ⟨n, s2, hn, hr, hf, hnow⟩ := run_of_signalled s1 hu1 hsig.1
    have hinv2 := Inv_run _ hinv1 hr
    have hw2 := (frame_run _ hr).2
    obtain ⟨s3, hw⟩ := wait_of_finished c hinv2 hf (by rw [hw2, hw1]; exact hc)
    exact ⟨n, s2, s3, hn, hr, hnow, hw⟩

theorem destroy_cancels_then_waits_witness :
    ∃ s1, sleeping.cancel 1 = .returns s1 ∧ s1.cancel_promise_ = true ∧
      sleeping.destroy 1 = .blocks s1 ∧
      (∀ evs s2 s3, s1.run evs = .returns s2 → s2.wait 1 = .returns s3 →
        s3.invocations = [true] ∧ s3.callback_returns = 1 ∧ s3.ended = true ∧
        s3.cancelled = true ∧ s3.pc = .finished ∧ s3.thread_ = none) ∧
      (∃ n s2 s3, n ≤ 6 ∧ s1.run (List.replicate n .worker) = .returns s2 ∧
        s2.now = s1.now ∧ s2.wait 1 = .returns s3) :=
  (destroy_cancels_then_waits sleeping 1 sleeping_reachable rfl (by decide)).2 rfl rfl

/-- C2: for every timer, when no `cancel()` happens before the worker's
`wait_for` returns, it returns no earlier than `timeout` ticks after
construction, and in every state any further events lead to, the callback has
been invoked with `false` only and, once `ended()` is true, exactly once with
`false`, with `cancelled()` false.  The callback is invoked: the worker's
remaining statements lead to such an ended state. -/
theorem timeout_without_cancel (timeout : Nat) (wid : ThreadId) (pre : List Event)
    (s0 : timer)
    (hpre : (timer.construct timeout wid).run pre = .returns s0)
    (hno : ∀ e ∈ pre, e.isCancel = false) (hres : s0.unresolved = false) :
    timeout ≤ s0.now ∧
    ∀ post s, s0.run post = .returns s →
      (∀ b ∈ s.invocations, b = false) ∧
      (s.ended = true → s.invocations = [false] ∧ s.cancelled = false) ∧
      (∃ s2, s.run s.completion = .returns s2 ∧ s2.ended = true ∧
        s2.invocations = [false] ∧ s2.cancelled = false) := by
  have hinv0 := Inv_run pre (Inv_construct timeout wid) hpre
  have hun : (timer.construct timeout wid).Untouched := by
    simp [timer.Untouched, timer.construct]
  have hun0 := Untouched_run pre hun hno hpre
  obtain ⟨hto, hnow⟩ := TimedOut_of_Untouched hun0 hres
  have htmo : s0.timeout = timeout := (frame_run pre hpre).1
  refine ⟨by rw [← htmo]; exact hnow, ?_⟩
  intro post s hpost
  have hinv := Inv_run post hinv0 hpost
  have hto1 := TimedOut_run post hto hpost
  obtain ⟨ha, hb, _⟩ := observed_of_TimedOut hinv hto1
  refine ⟨ha, hb, ?_⟩
  obtain ⟨s2, hr, hf⟩ := run_completion s
  have hinv2 := Inv_run _ hinv hr
  have hto2 := TimedOut_run _ hto1 hr
  obtain ⟨_, hb2, hd2⟩ := observed_of_TimedOut hinv2 hto2
  have he := hd2 hf
  exact ⟨s2, hr, he, (hb2 he).1, (hb2 he).2⟩

theorem timeout_without_cancel_witness :
    2 ≤ resolved_by_timeout.now ∧
    ∀ post s, resolved_by_timeout.run post = .returns s →
      (∀ b ∈ s.invocations, b = false) ∧
      (s.ended = true → s.invocations = [false] ∧ s.cancelled = false) ∧
      (∃ s2, s.run s.completion = .returns s2 ∧ s2.ended = true ∧
        s2.invocations = [false] ∧ s2.cancelled = false) :=
  timeout_without_cancel 2 7 [.assign, .worker, .tick, .tick, .worker] resolved_by_timeout
    (by decide) (by decide) rfl

end otk
